import Mathlib

/-!
Verification of the ReasoningBank learning pipeline and the MemoryGraph
PageRank layer of the claude-flow repository.

The embedding follows the TypeScript source closely:

* JavaScript numbers are modelled as rationals.  The source computes with
  IEEE doubles; none of the properties verified here depends on rounding
  behaviour, and thresholds in the source (0.5, 0.6, 0.8, 0.95, ...) are
  compared with clear margins in every concrete run used below.
* JavaScript Map objects are modelled as association lists in insertion
  order, which is the iteration order the source relies on.
* The cosine-similarity kernel of the source computes
  dot(a,b)/(sqrt(|a|)*sqrt(|b|)), an irrational-valued function.  Every
  operation of the bank is therefore parametrised by an arbitrary
  similarity kernel sim : Emb -> Emb -> Q, exactly where the source calls
  this.cosineSimilarity.  All structural theorems below hold for every
  kernel; concrete runs instantiate the kernel with the exact rational
  cosine values of the concrete vectors involved (for example
  cos([7,24],[3,4]) = 117/125 exactly).
* Math.exp (used only inside the relevanceScore of a verdict) is likewise
  an injected parameter expFn; no theorem depends on its values.
* Throwing code (judge on incomplete trajectories, event listeners) lives
  in the Except monad.
-/

namespace ClaudeFlow

/-- Embeddings: dense float vectors of the source, modelled over the rationals. -/
abbrev Emb := List ℚ

/-- One state transition of a task execution (source: TrajectoryStep). -/
structure TrajectoryStep where
  action : String
  stateAfter : Emb
  reward : ℚ
deriving DecidableEq

/-- Verdict produced by judge (source: TrajectoryVerdict). -/
structure TrajectoryVerdict where
  success : Bool
  confidence : ℚ
  strengths : List String
  weaknesses : List String
  improvements : List String
  relevanceScore : ℚ
deriving DecidableEq

/-- A reusable memory distilled from a trajectory (source: DistilledMemory). -/
structure DistilledMemory where
  memoryId : String
  trajectoryId : String
  strategy : String
  keyLearnings : List String
  embedding : Emb
  quality : ℚ
  usageCount : Nat
  lastUsed : ℚ
deriving DecidableEq

/-- An episodic record of a multi-step execution (source: Trajectory). -/
structure Trajectory where
  trajectoryId : String
  domain : String
  startTime : ℚ
  qualityScore : ℚ
  isComplete : Bool
  steps : List TrajectoryStep
  verdict : Option TrajectoryVerdict
  distilledMemory : Option DistilledMemory
deriving DecidableEq

/-- One entry of a pattern's evolution log (source: PatternEvolution). -/
structure PatternEvolution where
  timestamp : ℚ
  evolutionType : String
  previousQuality : ℚ
  newQuality : ℚ
  description : String
deriving DecidableEq

/-- A long-lived aggregate over repeated memory use (source: Pattern). -/
structure Pattern where
  patternId : String
  name : String
  domain : String
  embedding : Emb
  strategy : String
  successRate : ℚ
  usageCount : Nat
  qualityHistory : List ℚ
  evolutionHistory : List PatternEvolution
  createdAt : ℚ
  updatedAt : ℚ
deriving DecidableEq

/-- Events emitted by the bank (source: NeuralEvent).  Only the two shapes the
bank itself emits are modelled. -/
inductive NeuralEvent where
  | memoryConsolidated (memoriesCount : Nat)
  | patternEvolved (patternId : String) (evolutionType : String)
deriving DecidableEq

/-- A listener is arbitrary caller code and may throw (source: NeuralEventListener). -/
abbrev NeuralEventListener := NeuralEvent → Except String Unit

/-- Source: ReasoningBankConfig. -/
structure ReasoningBankConfig where
  maxTrajectories : Nat
  distillationThreshold : ℚ
  retrievalK : Nat
  mmrLambda : ℚ
  maxPatternAgeDays : ℚ
  dedupThreshold : ℚ
  enableContradictionDetection : Bool

/-- Source: DEFAULT_CONFIG. -/
def defaultConfig : ReasoningBankConfig :=
  { maxTrajectories := 5000
    distillationThreshold := 3/5
    retrievalK := 3
    mmrLambda := 7/10
    maxPatternAgeDays := 30
    dedupThreshold := 19/20
    enableContradictionDetection := true }

/-- A stored memory with metadata (source: MemoryEntry, private). -/
structure MemoryEntry where
  memory : DistilledMemory
  trajectory : Trajectory
  verdict : TrajectoryVerdict
  consolidated : Bool
deriving DecidableEq

/-- Source: RetrievalResult. -/
structure RetrievalResult where
  memory : DistilledMemory
  relevanceScore : ℚ
  diversityScore : ℚ
  combinedScore : ℚ
deriving DecidableEq

/-- Source: ConsolidationResult. -/
structure ConsolidationResult where
  removedDuplicates : Nat
  contradictionsDetected : Nat
  prunedPatterns : Nat
  mergedPatterns : Nat
deriving DecidableEq

/-- The mutable state of a ReasoningBank instance: three Maps in insertion
order plus the registered event listeners. -/
structure Bank where
  trajectories : List (String × Trajectory)
  memories : List (String × MemoryEntry)
  patterns : List (String × Pattern)
  listeners : List NeuralEventListener

-- ============================================================================
-- JavaScript Map primitives (insertion-order association lists)
-- ============================================================================

/-- Map.set: update in place when the key exists (keeping its position),
otherwise append. -/
def mapSet {α : Type} (m : List (String × α)) (k : String) (v : α) :
    List (String × α) :=
  if m.any (fun p => p.1 == k) then
    m.map (fun p => if p.1 == k then (k, v) else p)
  else
    m ++ [(k, v)]

/-- Map.delete. -/
def mapDelete {α : Type} (m : List (String × α)) (k : String) :
    List (String × α) :=
  m.filter (fun p => !(p.1 == k))

/-- Map.get. -/
def mapGet {α : Type} (m : List (String × α)) (k : String) : Option α :=
  (m.find? (fun p => p.1 == k)).map Prod.snd

/-- The keys of a map, in insertion order. -/
def mapKeys {α : Type} (m : List (String × α)) : List String :=
  m.map Prod.fst

-- ============================================================================
-- Stable sorting (JS Array.prototype.sort with a numeric comparator is a
-- stable sort since ES2019; a stable sort is uniquely determined by the
-- comparator, so insertion sort reproduces it exactly)
-- ============================================================================

/-- Insert into a descending-sorted list, before the first element that is not
strictly greater: equal keys keep their original relative order. -/
def insertDescBy {α : Type} (f : α → ℚ) (x : α) : List α → List α
  | [] => [x]
  | y :: ys => if f x ≥ f y then x :: y :: ys else y :: insertDescBy f x ys

/-- Stable sort, descending by f (JS comparator (a,b) => f b - f a). -/
def sortDescBy {α : Type} (f : α → ℚ) (l : List α) : List α :=
  l.foldr (insertDescBy f) []

/-- Insert into an ascending-sorted list; equal keys keep original order. -/
def insertAscBy {α : Type} (f : α → ℚ) (x : α) : List α → List α
  | [] => [x]
  | y :: ys => if f x ≤ f y then x :: y :: ys else y :: insertAscBy f x ys

/-- Stable sort, ascending by f (JS comparator (a,b) => f a - f b). -/
def sortAscBy {α : Type} (f : α → ℚ) (l : List α) : List α :=
  l.foldr (insertAscBy f) []

-- ============================================================================
-- JUDGE (source: ReasoningBank.judge and its private helpers)
-- ============================================================================

/-- Source: StepAnalysis.  The source's field positiveRatio is called
positiveFrac here; the field trajectory (the reward slope) is called slope. -/
structure StepAnalysis where
  totalSteps : Nat
  avgReward : ℚ
  positiveFrac : ℚ
  slope : ℚ
deriving DecidableEq

/-- last.reward - first.reward, 0 when the list has at most one step
(source: the trajectory field of analyzeSteps). -/
def rewardSlope : List TrajectoryStep → ℚ
  | [] => 0
  | [_] => 0
  | s :: t :: rest => ((((t :: rest).getLast?).getD t).reward) - s.reward

/-- Source: ReasoningBank.analyzeSteps. -/
def analyzeSteps (steps : List TrajectoryStep) : StepAnalysis :=
  let rewardSum := (steps.map (fun s => s.reward)).sum
  let positiveSteps := (steps.filter (fun s => decide (s.reward > 1/2))).length
  { totalSteps := steps.length
    avgReward := if steps.length > 0 then rewardSum / (steps.length : ℚ) else 0
    positiveFrac :=
      if steps.length > 0 then (positiveSteps : ℚ) / (steps.length : ℚ) else 0
    slope := rewardSlope steps }

/-- Source: ReasoningBank.identifyStrengths. -/
def identifyStrengths (traj : Trajectory) (analysis : StepAnalysis) :
    List String :=
  (if analysis.avgReward > 7/10 then ["High average reward across steps"] else [])
    ++ (if analysis.slope > 1/5 then ["Positive reward trajectory"] else [])
    ++ (if traj.qualityScore > 4/5 then ["High overall quality"] else [])
    ++ (if analysis.totalSteps < 5 ∧ traj.qualityScore > 3/5 then
          ["Efficient solution (few steps)"] else [])

/-- Source: ReasoningBank.identifyWeaknesses. -/
def identifyWeaknesses (traj : Trajectory) (analysis : StepAnalysis) :
    List String :=
  (if analysis.avgReward < 2/5 then ["Low average reward"] else [])
    ++ (if analysis.slope < -(1/10) then ["Declining reward trajectory"] else [])
    ++ (if analysis.positiveFrac < 1/2 then ["Many negative/neutral steps"] else [])
    ++ (if analysis.totalSteps > 10 ∧ traj.qualityScore < 7/10 then
          ["Long trajectory with mediocre outcome"] else [])

/-- Leading-match test on character lists. -/
def charsStartWith : List Char → List Char → Bool
  | _, [] => true
  | [], _ :: _ => false
  | a :: as, b :: bs => a == b && charsStartWith as bs

/-- Substring occurrence test on character lists. -/
def charsHaveSub (s pat : List Char) : Bool :=
  match s with
  | [] => pat.isEmpty
  | _ :: rest => charsStartWith s pat || charsHaveSub rest pat

/-- JS String.prototype.includes. -/
def strIncludes (s pat : String) : Bool :=
  charsHaveSub s.data pat.data

/-- Source: ReasoningBank.generateImprovements. -/
def generateImprovements (weaknesses : List String) : List String :=
  weaknesses.foldl
    (fun acc w =>
      acc
        ++ (if strIncludes w "Low average reward" then
              ["Consider alternative strategies for each step"] else [])
        ++ (if strIncludes w "Declining" then
              ["Re-evaluate approach when reward decreases"] else [])
        ++ (if strIncludes w "negative/neutral" then
              ["Focus on steps with clearer positive signals"] else [])
        ++ (if strIncludes w "Long trajectory" then
              ["Look for shortcuts or more direct approaches"] else []))
    []

/-- Source: ReasoningBank.computeRelevanceScore.  expFn models Math.exp; now
models Date.now(). -/
def computeRelevanceScore (expFn : ℚ → ℚ) (now : ℚ) (traj : Trajectory) : ℚ :=
  let ageDays := (now - traj.startTime) / (1000 * 60 * 60 * 24)
  let recencyFactor := expFn (-(ageDays / 30))
  traj.qualityScore * (7/10) + recencyFactor * (3/10)

/-- Source: ReasoningBank.computeConfidence. -/
def computeConfidence (traj : Trajectory) (analysis : StepAnalysis) : ℚ :=
  let stepFactor := min ((analysis.totalSteps : ℚ) / 10) 1
  let consistencyFactor := analysis.positiveFrac
  let outcomeFactor := |traj.qualityScore - 1/2| * 2
  stepFactor * (3/10) + consistencyFactor * (4/10) + outcomeFactor * (3/10)

/-- Source: ReasoningBank.judge.  Throws on an incomplete trajectory; on
success, returns the verdict together with the trajectory carrying it
(the source mutates trajectory.verdict in place). -/
def judge (cfg : ReasoningBankConfig) (expFn : ℚ → ℚ) (now : ℚ)
    (traj : Trajectory) : Except String (TrajectoryVerdict × Trajectory) :=
  if traj.isComplete then
    let analysis := analyzeSteps traj.steps
    let success :=
      decide (traj.qualityScore ≥ cfg.distillationThreshold)
        && decide (analysis.positiveFrac > 3/5)
    let weaknesses := identifyWeaknesses traj analysis
    let verdict : TrajectoryVerdict :=
      { success := success
        confidence := computeConfidence traj analysis
        strengths := identifyStrengths traj analysis
        weaknesses := weaknesses
        improvements := generateImprovements weaknesses
        relevanceScore := computeRelevanceScore expFn now traj }
    .ok (verdict, { traj with verdict := some verdict })
  else
    .error "Cannot judge incomplete trajectory"

-- ============================================================================
-- DISTILL (source: ReasoningBank.distill and its private helpers)
-- ============================================================================

/-- De-duplicate keeping the first occurrence, as JS [...new Set(xs)] does. -/
def uniqueFirstAux (seen : List String) : List String → List String
  | [] => []
  | a :: rest =>
    if a ∈ seen then uniqueFirstAux seen rest
    else a :: uniqueFirstAux (a :: seen) rest

/-- Source: ReasoningBank.extractStrategy. -/
def extractStrategy (traj : Trajectory) : String :=
  let uniqueActions := uniqueFirstAux [] (traj.steps.map (fun s => s.action))
  if uniqueActions.length ≤ 3 then
    "Apply " ++ String.intercalate " -> " uniqueActions
  else
    "Multi-step approach: " ++ String.intercalate ", " (uniqueActions.take 3)
      ++ "..."

/-- Source: ReasoningBank.extractKeyLearnings (the verdict is passed explicitly
instead of being read through the non-null assertion trajectory.verdict!). -/
def extractKeyLearnings (traj : Trajectory) (v : TrajectoryVerdict) :
    List String :=
  if v.success then
    ("Successful approach for " ++ traj.domain ++ " domain")
      :: (v.strengths.take 2).map (fun s => "Strength: " ++ s)
  else
    "Approach needs refinement"
      :: (v.improvements.take 2).map (fun i => "Improvement: " ++ i)

/-- Source: ReasoningBank.computeAggregateEmbedding.  Weighted average of step
state vectors with weight (i+1)/n, normalised by the total weight.  Step
vectors have a fixed dimension per trajectory (spec, section 3), so the
default value of getD is never taken on well-formed inputs. -/
def computeAggregateEmbedding (traj : Trajectory) : Emb :=
  match traj.steps with
  | [] => List.replicate 768 0
  | s0 :: _ =>
    let n := traj.steps.length
    let dim := s0.stateAfter.length
    let totalWeight : ℚ :=
      ((List.range n).map (fun i => ((i : ℚ) + 1) / (n : ℚ))).sum
    (List.range dim).map (fun j =>
      (((List.range n).map (fun i =>
          ((traj.steps.getD i s0).stateAfter.getD j 0) * ((i : ℚ) + 1) / (n : ℚ))).sum)
        / totalWeight)

/-- The memory built by a successful distill call (the source's local value
memory; newId stands for the generated id mem_<Date.now()>_<random>). -/
def distilledOf (now : ℚ) (newId : String) (traj1 : Trajectory)
    (v : TrajectoryVerdict) : DistilledMemory :=
  { memoryId := newId
    trajectoryId := traj1.trajectoryId
    strategy := extractStrategy traj1
    keyLearnings := extractKeyLearnings traj1 v
    embedding := computeAggregateEmbedding traj1
    quality := traj1.qualityScore
    usageCount := 0
    lastUsed := now }

/-- The successful branch of distill: store the new memory entry and
cross-link the trajectory (the stored entry's trajectory reference is the
same mutated object). -/
def distillSuccess (now : ℚ) (newId : String) (bank : Bank)
    (traj1 : Trajectory) (v : TrajectoryVerdict) :
    Option DistilledMemory × Bank × Trajectory :=
  let memory := distilledOf now newId traj1 v
  let traj2 := { traj1 with distilledMemory := some memory }
  let entry : MemoryEntry :=
    { memory := memory, trajectory := traj2, verdict := v
      consolidated := false }
  (some memory,
   { bank with memories := mapSet bank.memories memory.memoryId entry },
   traj2)

/-- Source: ReasoningBank.distill.  Judges first when no verdict is attached;
returns null (storing nothing) for unsuccessful or below-threshold
trajectories.  Returns the distilled memory (or null), the updated bank and
the updated trajectory object. -/
def distill (cfg : ReasoningBankConfig) (expFn : ℚ → ℚ) (now : ℚ)
    (newId : String) (bank : Bank) (traj : Trajectory) :
    Except String (Option DistilledMemory × Bank × Trajectory) :=
  let judged : Except String Trajectory :=
    match traj.verdict with
    | some _ => .ok traj
    | none => (judge cfg expFn now traj).map Prod.snd
  match judged with
  | .error e => .error e
  | .ok traj1 =>
    match traj1.verdict with
    | none => .error "missing verdict"
    | some v =>
      if !v.success || decide (traj1.qualityScore < cfg.distillationThreshold) then
        .ok (none, bank, traj1)
      else
        .ok (distillSuccess now newId bank traj1 v)

-- ============================================================================
-- RETRIEVE (source: ReasoningBank.retrieve, MMR loop)
-- ============================================================================

/-- Source: ReasoningBank.computeMaxSimilarity — max similarity of an entry to
any already-selected entry, starting from 0. -/
def computeMaxSimilarity (sim : Emb → Emb → ℚ) (entry : MemoryEntry)
    (selected : List MemoryEntry) : ℚ :=
  selected.foldl
    (fun m s => max m (sim entry.memory.embedding s.memory.embedding)) 0

/-- The MMR score of a candidate against the already-selected set:
lambda * relevance + (1 - lambda) * (1 - maxSimilarityToSelected). -/
def mmrScore (cfg : ReasoningBankConfig) (sim : Emb → Emb → ℚ)
    (selected : List MemoryEntry) (c : MemoryEntry × ℚ) : ℚ :=
  cfg.mmrLambda * c.2
    + (1 - cfg.mmrLambda) * (1 - computeMaxSimilarity sim c.1 selected)

/-- The inner argmax scan of the MMR loop: bestScore starts at -Infinity and
bestIdx at 0, and a candidate replaces the best only on a strictly greater
score, so the first maximum wins. -/
def bestIndexAux (bestIdx : Nat) (bestScore : ℚ) (i : Nat) :
    List ℚ → Nat
  | [] => bestIdx
  | s :: rest =>
    if s > bestScore then bestIndexAux i s (i + 1) rest
    else bestIndexAux bestIdx bestScore (i + 1) rest

/-- Index of the first maximum of a list of scores (0 on the empty list, as in
the source where the loop body never runs then). -/
def bestIndex : List ℚ → Nat
  | [] => 0
  | s :: rest => bestIndexAux 0 s 1 rest

/-- The greedy MMR selection loop of retrieve.  Each round scores every
remaining candidate against the selected set, moves the best one over, and
records its scores; the reported diversityScore is computed against the
entries selected before it (selected.slice(0,-1) after the push, which is the
selected list before the push). -/
def mmrLoop (cfg : ReasoningBankConfig) (sim : Emb → Emb → ℚ) :
    Nat → List (MemoryEntry × ℚ) → List MemoryEntry → List RetrievalResult
  | 0, _, _ => []
  | _ + 1, [], _ => []
  | fuel + 1, c :: cs, selected =>
    let candidates := c :: cs
    let scores := candidates.map (mmrScore cfg sim selected)
    let bi := bestIndex scores
    let best := candidates.getD bi c
    let res : RetrievalResult :=
      { memory := best.1.memory
        relevanceScore := best.2
        diversityScore := 1 - computeMaxSimilarity sim best.1 selected
        combinedScore := scores.getD bi 0 }
    res :: mmrLoop cfg sim fuel (candidates.eraseIdx bi) (selected ++ [best.1])

/-- The candidate pool of retrieve: every stored memory with its relevance to
the query, sorted descending by relevance (stable, so ties keep insertion
order).  Note: the source does NOT filter out entries with
consolidated = true here. -/
def relevanceRanking (sim : Emb → Emb → ℚ) (bank : Bank) (query : Emb) :
    List (MemoryEntry × ℚ) :=
  sortDescBy (fun c => c.2)
    (bank.memories.map (fun p => (p.2, sim query p.2.memory.embedding)))

/-- Source: ReasoningBank.retrieve. -/
def retrieve (cfg : ReasoningBankConfig) (sim : Emb → Emb → ℚ) (bank : Bank)
    (query : Emb) (k : Option Nat) : List RetrievalResult :=
  let retrieveK := k.getD cfg.retrievalK
  if bank.memories.isEmpty then []
  else mmrLoop cfg sim retrieveK (relevanceRanking sim bank query) []

-- ============================================================================
-- Event system (source: addEventListener / emitEvent)
-- ============================================================================

/-- Source: ReasoningBank.emitEvent.  Each listener runs inside a try/catch
that only logs the error (console.error) and continues with the next
listener. -/
def emitEvent (listeners : List NeuralEventListener) (e : NeuralEvent) :
    Except String Unit :=
  match listeners with
  | [] => .ok ()
  | l :: rest =>
    match l e with
    | .ok _ => emitEvent rest e
    | .error _ => emitEvent rest e

-- ============================================================================
-- CONSOLIDATE, part 1: memory dedup (source: deduplicateMemories)
-- ============================================================================

/-- The inner j-loop of deduplicateMemories for a fixed snapshot element a:
for each later snapshot element b, if sim > dedupThreshold the lower-quality
key is deleted from the live store (ties keep the i element) and the removed
counter is incremented — even when the deleted key is already gone. -/
def dedupInner (sim : Emb → Emb → ℚ) (thr : ℚ) (a : String × MemoryEntry) :
    List (String × MemoryEntry) → List (String × MemoryEntry) → Nat →
      List (String × MemoryEntry) × Nat
  | [], store, removed => (store, removed)
  | b :: bs, store, removed =>
    if sim a.2.memory.embedding b.2.memory.embedding > thr then
      let store2 :=
        if a.2.memory.quality ≥ b.2.memory.quality then mapDelete store b.1
        else mapDelete store a.1
      dedupInner sim thr a bs store2 (removed + 1)
    else
      dedupInner sim thr a bs store removed

/-- The outer i-loop of deduplicateMemories over the snapshot
Array.from(this.memories.entries()). -/
def dedupOuter (sim : Emb → Emb → ℚ) (thr : ℚ) :
    List (String × MemoryEntry) → List (String × MemoryEntry) → Nat →
      List (String × MemoryEntry) × Nat
  | [], store, removed => (store, removed)
  | a :: rest, store, removed =>
    let p := dedupInner sim thr a rest store removed
    dedupOuter sim thr rest p.1 p.2

/-- Source: ReasoningBank.deduplicateMemories.  The snapshot is the current
memory store itself. -/
def deduplicateMemories (cfg : ReasoningBankConfig) (sim : Emb → Emb → ℚ)
    (bank : Bank) : Bank × Nat :=
  let p := dedupOuter sim cfg.dedupThreshold bank.memories bank.memories 0
  ({ bank with memories := p.1 }, p.2)

-- ============================================================================
-- CONSOLIDATE, part 2: contradiction detection (source: detectContradictions)
-- ============================================================================

/-- Set consolidated = true on the entry with the given key (the source sets
the flag on the shared entry object, which is the map's value). -/
def markConsolidated (store : List (String × MemoryEntry)) (k : String) :
    List (String × MemoryEntry) :=
  store.map (fun p =>
    if p.1 == k then (p.1, { p.2 with consolidated := true }) else p)

/-- Inner j-loop of detectContradictions: pairs with sim > 0.8 and
|quality difference| > 0.4 mark the lower-quality entry consolidated (the
i element when qualities tie goes unmarked: the source marks j then).
Embedding and quality are immutable during the pass, so reading them from the
snapshot matches the source reading them through the live objects. -/
def contraInner (sim : Emb → Emb → ℚ) (a : String × MemoryEntry) :
    List (String × MemoryEntry) → List (String × MemoryEntry) → Nat →
      List (String × MemoryEntry) × Nat
  | [], store, count => (store, count)
  | b :: bs, store, count =>
    if sim a.2.memory.embedding b.2.memory.embedding > 4/5 then
      if |a.2.memory.quality - b.2.memory.quality| > 2/5 then
        let store2 :=
          if a.2.memory.quality < b.2.memory.quality then markConsolidated store a.1
          else markConsolidated store b.1
        contraInner sim a bs store2 (count + 1)
      else contraInner sim a bs store count
    else contraInner sim a bs store count

/-- Outer i-loop of detectContradictions. -/
def contraOuter (sim : Emb → Emb → ℚ) :
    List (String × MemoryEntry) → List (String × MemoryEntry) → Nat →
      List (String × MemoryEntry) × Nat
  | [], store, count => (store, count)
  | a :: rest, store, count =>
    let p := contraInner sim a rest store count
    contraOuter sim rest p.1 p.2

/-- Source: ReasoningBank.detectContradictions. -/
def detectContradictions (sim : Emb → Emb → ℚ) (bank : Bank) : Bank × Nat :=
  let p := contraOuter sim bank.memories bank.memories 0
  ({ bank with memories := p.1 }, p.2)

-- ============================================================================
-- CONSOLIDATE, part 3: pattern pruning (source: pruneOldPatterns)
-- ============================================================================

/-- Source: ReasoningBank.pruneOldPatterns — delete patterns older than
maxPatternAgeDays with usageCount < 5. -/
def pruneOldPatterns (cfg : ReasoningBankConfig) (now : ℚ) (bank : Bank) :
    Bank × Nat :=
  let maxAge := cfg.maxPatternAgeDays * 24 * 60 * 60 * 1000
  let kept := bank.patterns.filter (fun p =>
    !(decide (now - p.2.updatedAt > maxAge) && decide (p.2.usageCount < 5)))
  ({ bank with patterns := kept }, bank.patterns.length - kept.length)

-- ============================================================================
-- CONSOLIDATE, part 4: pattern merging (source: mergePatterns)
-- ============================================================================

/-- Heap lookup by key (the snapshot in mergePatterns holds live object
references, so merged-in statistics must be read from current object state;
the heap tracks that state by id). -/
def heapGet (heap : List (String × Pattern)) (k : String) : Option Pattern :=
  (heap.find? (fun p => p.1 == k)).map Prod.snd

/-- Heap update by key. -/
def heapSet (heap : List (String × Pattern)) (k : String) (v : Pattern) :
    List (String × Pattern) :=
  heap.map (fun p => if p.1 == k then (k, v) else p)

/-- One merge: fold usageCount and qualityHistory of the loser into the
keeper, append a merge evolution entry, and delete the loser's id from the
live map.  The keeper's successRate is NOT recomputed by the source. -/
def mergePair (now : ℚ) (heap : List (String × Pattern)) (alive : List String)
    (keepId removeId : String) : List (String × Pattern) × List String :=
  match heapGet heap keepId, heapGet heap removeId with
  | some keep, some remove =>
    let keep2 : Pattern :=
      { keep with
        usageCount := keep.usageCount + remove.usageCount
        qualityHistory := keep.qualityHistory ++ remove.qualityHistory
        evolutionHistory := keep.evolutionHistory ++
          [{ timestamp := now
             evolutionType := "merge"
             previousQuality := keep.successRate
             newQuality := (keep.successRate + remove.successRate) / 2
             description := "Merged with pattern " ++ removeId }] }
    (heapSet heap keepId keep2, alive.filter (fun k => !(k == removeId)))
  | _, _ => (heap, alive)

/-- Inner j-loop of mergePatterns.  The merge decision reads embedding,
domain and successRate, none of which is mutated during the pass, so snapshot
reads match the source's reads through the live objects. -/
def mergeInner (sim : Emb → Emb → ℚ) (now : ℚ) (a : String × Pattern) :
    List (String × Pattern) → List (String × Pattern) → List String → Nat →
      List (String × Pattern) × List String × Nat
  | [], heap, alive, merged => (heap, alive, merged)
  | b :: bs, heap, alive, merged =>
    if sim a.2.embedding b.2.embedding > 9/10 ∧ a.2.domain = b.2.domain then
      let ids :=
        if a.2.successRate ≥ b.2.successRate then (a.1, b.1) else (b.1, a.1)
      let p := mergePair now heap alive ids.1 ids.2
      mergeInner sim now a bs p.1 p.2 (merged + 1)
    else
      mergeInner sim now a bs heap alive merged

/-- Outer i-loop of mergePatterns. -/
def mergeOuter (sim : Emb → Emb → ℚ) (now : ℚ) :
    List (String × Pattern) → List (String × Pattern) → List String → Nat →
      List (String × Pattern) × List String × Nat
  | [], heap, alive, merged => (heap, alive, merged)
  | a :: rest, heap, alive, merged =>
    let p := mergeInner sim now a rest heap alive merged
    mergeOuter sim now rest p.1 p.2.1 p.2.2

/-- Source: ReasoningBank.mergePatterns.  The heap starts as the snapshot;
the live map is the alive key list resolved through the heap at the end. -/
def mergePatterns (sim : Emb → Emb → ℚ) (now : ℚ) (bank : Bank) :
    Bank × Nat :=
  let snapshot := bank.patterns
  let r := mergeOuter sim now snapshot snapshot (mapKeys snapshot) 0
  ({ bank with
      patterns := r.2.1.filterMap (fun k => (heapGet r.1 k).map (fun v => (k, v))) },
   r.2.2)

-- ============================================================================
-- CONSOLIDATE (source: ReasoningBank.consolidate)
-- ============================================================================

/-- The pure part of consolidate: dedup, detect contradictions (when
enabled), prune old patterns, merge similar patterns. -/
def consolidateRun (cfg : ReasoningBankConfig) (sim : Emb → Emb → ℚ) (now : ℚ)
    (bank : Bank) : ConsolidationResult × Bank :=
  let p1 := deduplicateMemories cfg sim bank
  let p2 :=
    if cfg.enableContradictionDetection then detectContradictions sim p1.1
    else (p1.1, 0)
  let p3 := pruneOldPatterns cfg now p2.1
  let p4 := mergePatterns sim now p3.1
  ({ removedDuplicates := p1.2
     contradictionsDetected := p2.2
     prunedPatterns := p3.2
     mergedPatterns := p4.2 }, p4.1)

/-- Source: ReasoningBank.consolidate — dedup, detect contradictions (when
enabled), prune old patterns, merge similar patterns, then emit a
memory_consolidated event with the final memory count. -/
def consolidate (cfg : ReasoningBankConfig) (sim : Emb → Emb → ℚ) (now : ℚ)
    (bank : Bank) : Except String (ConsolidationResult × Bank) :=
  let r := consolidateRun cfg sim now bank
  match emitEvent r.2.listeners (.memoryConsolidated r.2.memories.length) with
  | .ok _ => .ok r
  | .error e => .error e

-- ============================================================================
-- Pattern evolution (source: evolvePattern, determineEvolutionType)
-- ============================================================================

/-- Source: ReasoningBank.determineEvolutionType. -/
def determineEvolutionType (prev curr : ℚ) : String :=
  let delta := curr - prev
  if delta > 1/20 then "improvement"
  else if delta < -(1/10) then "prune"
  else "improvement"

/-- Source: ReasoningBank.evolvePattern — append the new quality, cap the
history at the most recent 100 samples, recompute successRate as the mean of
the capped history, log the evolution and emit a pattern_evolved event.
No-op when the pattern id is unknown. -/
def evolvePattern (now : ℚ) (bank : Bank) (patternId : String)
    (newExperience : Trajectory) : Except String Bank :=
  match mapGet bank.patterns patternId with
  | none => .ok bank
  | some pattern =>
    let previousQuality := pattern.successRate
    let qh1 := pattern.qualityHistory ++ [newExperience.qualityScore]
    let qh2 := if qh1.length > 100 then qh1.drop (qh1.length - 100) else qh1
    let newRate := qh2.sum / (qh2.length : ℚ)
    let evolutionType := determineEvolutionType previousQuality newRate
    let pattern2 : Pattern :=
      { pattern with
        qualityHistory := qh2
        successRate := newRate
        usageCount := pattern.usageCount + 1
        updatedAt := now
        evolutionHistory := pattern.evolutionHistory ++
          [{ timestamp := now
             evolutionType := evolutionType
             previousQuality := previousQuality
             newQuality := newRate
             description := "Updated based on trajectory "
               ++ newExperience.trajectoryId }] }
    let bank2 := { bank with patterns := mapSet bank.patterns patternId pattern2 }
    match emitEvent bank2.listeners (.patternEvolved patternId evolutionType) with
    | .ok _ => .ok bank2
    | .error e => .error e

-- ============================================================================
-- Trajectory management (source: storeTrajectory, pruneTrajectories)
-- ============================================================================

/-- Source: ReasoningBank.pruneTrajectories — sort ascending by qualityScore
and delete the first (length - floor(0.8 * maxTrajectories)) entries, i.e.
the lowest-quality ones; Math.floor(max * 0.8) is floor division by 5 of
4 * max.  A non-positive removal count makes the JS loop a no-op, which Nat
subtraction reproduces. -/
def pruneTrajectories (cfg : ReasoningBankConfig) (bank : Bank) : Bank :=
  let entries := sortAscBy (fun p => p.2.qualityScore) bank.trajectories
  let toRemove := entries.length - (cfg.maxTrajectories * 4) / 5
  let removeKeys := (entries.take toRemove).map Prod.fst
  { bank with
      trajectories := bank.trajectories.filter (fun p => !(removeKeys.contains p.1)) }

/-- Source: ReasoningBank.storeTrajectory — always Map.set first, then prune
when the store exceeds maxTrajectories. -/
def storeTrajectory (cfg : ReasoningBankConfig) (bank : Bank)
    (traj : Trajectory) : Bank :=
  let bank1 :=
    { bank with trajectories := mapSet bank.trajectories traj.trajectoryId traj }
  if bank1.trajectories.length > cfg.maxTrajectories then
    pruneTrajectories cfg bank1
  else bank1

-- ============================================================================
-- MemoryGraph PageRank.
-- Modelled from the spec: the implementation file memory-graph.ts is not
-- part of the provided sources (only its test suite is), so computePageRank
-- is modelled from spec section 4.6: classic power iteration with damping d,
-- new rank = (1-d)/N + d * (sum over predecessors of rank/outDegree +
-- uniform redistribution of dangling-node mass), iterated until the total L1
-- change falls below a small threshold or maxIterations (50) is reached.
-- ============================================================================

/-- Modelled from the spec: the node/edge structure of MemoryGraph needed by
computePageRank.  Nodes carry ids; edges are directed and may only connect
present nodes (spec section 3 invariant). -/
structure MemoryGraph where
  nodes : Finset ℕ
  edges : Finset (ℕ × ℕ)
  edges_valid : ∀ e ∈ edges, e.1 ∈ nodes ∧ e.2 ∈ nodes

/-- Number of outgoing edges of a node. -/
def outDeg (g : MemoryGraph) (v : ℕ) : ℕ :=
  (g.edges.filter (fun e => e.1 = v)).card

/-- Damping factor (spec: pageRankDamping, default 0.85). -/
def pageRankDamping : ℚ := 17/20

/-- Convergence threshold on the total L1 change (spec: a small fixed
constant; the exact value is explicitly left open by the spec). -/
def pageRankTolerance : ℚ := 1/1000000

/-- Iteration cap (spec: maxIterations, e.g. 50). -/
def pageRankMaxIterations : Nat := 50

/-- Total rank mass sitting on dangling (zero out-degree) nodes. -/
def danglingMass (g : MemoryGraph) (r : ℕ → ℚ) : ℚ :=
  ∑ v in g.nodes.filter (fun v => outDeg g v = 0), r v

/-- One power-iteration step:
(1-d)/N + d * (incoming rank/outDegree + danglingMass/N). -/
def pageRankStep (g : MemoryGraph) (r : ℕ → ℚ) (v : ℕ) : ℚ :=
  let n : ℚ := (g.nodes.card : ℚ)
  (1 - pageRankDamping) / n
    + pageRankDamping *
        ((∑ u in g.nodes.filter (fun u => (u, v) ∈ g.edges),
            r u / (outDeg g u : ℚ))
          + danglingMass g r / n)

/-- Total L1 change between two rank assignments over the graph's nodes. -/
def l1Diff (g : MemoryGraph) (r r' : ℕ → ℚ) : ℚ :=
  ∑ v in g.nodes, |r' v - r v|

/-- The fuelled power iteration with early exit on convergence. -/
def pageRankIter (g : MemoryGraph) : Nat → (ℕ → ℚ) → (ℕ → ℚ)
  | 0, r => r
  | fuel + 1, r =>
    let r' := fun v => pageRankStep g r v
    if l1Diff g r r' < pageRankTolerance then r' else pageRankIter g fuel r'

/-- Modelled from the spec: MemoryGraph.computePageRank.  An empty graph
yields an empty map (all-zero here); otherwise power iteration starts from
the uniform distribution. -/
def computePageRank (g : MemoryGraph) : ℕ → ℚ :=
  if g.nodes.card = 0 then fun _ => 0
  else pageRankIter g pageRankMaxIterations (fun _ => 1 / (g.nodes.card : ℚ))

-- ============================================================================
-- Concrete objects used in witnesses and counterexamples
-- ============================================================================

deriving instance DecidableEq for Except

instance : Inhabited TrajectoryVerdict :=
  ⟨{ success := false, confidence := 0, strengths := [], weaknesses := []
     improvements := [], relevanceScore := 0 }⟩

instance : Inhabited Trajectory :=
  ⟨{ trajectoryId := "", domain := "", startTime := 0, qualityScore := 0
     isComplete := false, steps := [], verdict := none, distilledMemory := none }⟩

instance : Inhabited DistilledMemory :=
  ⟨{ memoryId := "", trajectoryId := "", strategy := "", keyLearnings := []
     embedding := [], quality := 0, usageCount := 0, lastUsed := 0 }⟩

instance : Inhabited ConsolidationResult :=
  ⟨{ removedDuplicates := 0, contradictionsDetected := 0, prunedPatterns := 0
     mergedPatterns := 0 }⟩

instance : Inhabited Bank :=
  ⟨{ trajectories := [], memories := [], patterns := [], listeners := [] }⟩

/-- A stand-in for Math.exp in concrete runs; only the relevanceScore of a
verdict depends on it, and no verified property reads that field. -/
def expOne : ℚ → ℚ := fun _ => 1

/-- The similarity kernel that is 1 on equal vectors and 0 otherwise: the
value cosine similarity takes on identical vectors and on orthogonal ones. -/
def simEq : Emb → Emb → ℚ := fun a b => if a = b then 1 else 0

/-- A placeholder verdict for hand-built memory entries. -/
def dummyVerdict : TrajectoryVerdict :=
  { success := true, confidence := 1, strengths := [], weaknesses := []
    improvements := [], relevanceScore := 1 }

/-- A placeholder trajectory for hand-built memory entries. -/
def dummyTrajectory (tid : String) : Trajectory :=
  { trajectoryId := tid, domain := "general", startTime := 0, qualityScore := 1
    isComplete := true, steps := [], verdict := none, distilledMemory := none }

/-- Build a stored memory entry with the given embedding and quality. -/
def mkEntry (id tid : String) (emb : Emb) (q : ℚ) : MemoryEntry :=
  { memory :=
      { memoryId := id, trajectoryId := tid, strategy := "s", keyLearnings := []
        embedding := emb, quality := q, usageCount := 0, lastUsed := 0 }
    trajectory := dummyTrajectory tid
    verdict := dummyVerdict
    consolidated := false }

/-- A bare trajectory with a given id and quality score. -/
def trajQ (id : String) (q : ℚ) : Trajectory :=
  { trajectoryId := id, domain := "general", startTime := 0, qualityScore := q
    isComplete := true, steps := [], verdict := none, distilledMemory := none }

-- ============================================================================
-- Shared helper lemmas
-- ============================================================================

/-- The try/catch in emitEvent swallows every listener error: emitEvent never
propagates an exception, whatever the listeners do. -/
theorem emitEvent_ok (listeners : List NeuralEventListener) (e : NeuralEvent) :
    emitEvent listeners e = .ok () := by
  induction listeners with
  | nil => rfl
  | cons l rest ih =>
    simp only [emitEvent]
    cases l e with
    | ok _ => exact ih
    | error _ => exact ih

/-- positiveFrac of analyzeSteps as a bare fraction: the defensive zero-length
guard of the source coincides with rational division by zero. -/
def positiveFracOf (steps : List TrajectoryStep) : ℚ :=
  ((steps.filter (fun s => decide (s.reward > 1/2))).length : ℚ)
    / (steps.length : ℚ)

theorem analyzeSteps_positiveFrac (steps : List TrajectoryStep) :
    (analyzeSteps steps).positiveFrac = positiveFracOf steps := by
  cases steps with
  | nil => simp [analyzeSteps, positiveFracOf]
  | cons s rest => simp [analyzeSteps, positiveFracOf]

-- ============================================================================
-- C10: listener exceptions never escape consolidate or evolvePattern
-- ============================================================================

/-- C10: exceptions thrown by registered event listeners never propagate to
callers of ReasoningBank operations: emitEvent catches every listener error,
so consolidate and evolvePattern always return an ok result, whatever
listeners the bank carries. -/
theorem listener_errors_never_propagate
    (cfg : ReasoningBankConfig) (sim : Emb → Emb → ℚ) (now : ℚ) (bank : Bank)
    (patternId : String) (traj : Trajectory) :
    (∃ out, consolidate cfg sim now bank = .ok out)
      ∧ (∃ bank2, evolvePattern now bank patternId traj = .ok bank2) := by
  constructor
  · unfold consolidate
    simp only [emitEvent_ok]
    exact ⟨_, rfl⟩
  · unfold evolvePattern
    cases mapGet bank.patterns patternId with
    | none => exact ⟨bank, rfl⟩
    | some pattern =>
      simp only [emitEvent_ok]
      exact ⟨_, rfl⟩

-- ============================================================================
-- C5: judge success condition
-- ============================================================================

/-- The end-to-end scenario of the spec: 3 steps with rewards 0.2, 0.8, 0.9
and qualityScore 0.75. -/
def trajC5 : Trajectory :=
  { trajectoryId := "traj_c5", domain := "general", startTime := 0
    qualityScore := 3/4, isComplete := true
    steps := [⟨"s1", [1, 0], 1/5⟩, ⟨"s2", [0, 1], 4/5⟩, ⟨"s3", [1, 1], 9/10⟩]
    verdict := none, distilledMemory := none }

section RatEval

attribute [local semireducible] Rat.add Rat.mul Rat.sub Rat.inv

/-- C5: for every complete trajectory, the verdict returned by judge has
success true iff qualityScore is at least distillationThreshold and the
fraction of steps with reward above 0.5 is strictly greater than 0.6; in
particular, the 3-step trajectory with rewards 0.2/0.8/0.9, qualityScore 0.75
and the default threshold 0.6 is judged a success. -/
theorem judge_success_iff :
    (∀ (cfg : ReasoningBankConfig) (expFn : ℚ → ℚ) (now : ℚ)
       (traj : Trajectory) (v : TrajectoryVerdict) (traj' : Trajectory),
       traj.isComplete = true →
       judge cfg expFn now traj = .ok (v, traj') →
       (v.success = true ↔
         (traj.qualityScore ≥ cfg.distillationThreshold
           ∧ positiveFracOf traj.steps > 3/5)))
    ∧ (judge defaultConfig expOne 0 trajC5).map (fun p => p.1.success)
        = .ok true := by
  constructor
  · intro cfg expFn now traj v traj' h hj
    simp only [judge, h, if_true, Except.ok.injEq, Prod.mk.injEq] at hj
    obtain ⟨hv, _⟩ := hj
    rw [← hv]
    simp [Bool.and_eq_true, decide_eq_true_iff, analyzeSteps_positiveFrac]
  · decide

/-- The concrete verdict of judge on the end-to-end scenario. -/
def c5res : TrajectoryVerdict × Trajectory :=
  (judge defaultConfig expOne 0 trajC5).toOption.getD default

theorem judge_success_iff_witness :
    trajC5.isComplete = true
      ∧ judge defaultConfig expOne 0 trajC5 = .ok (c5res.1, c5res.2)
      ∧ (c5res.1.success = true ↔
          (trajC5.qualityScore ≥ defaultConfig.distillationThreshold
            ∧ positiveFracOf trajC5.steps > 3/5)) :=
  ⟨by decide, by decide,
   judge_success_iff.1 defaultConfig expOne 0 trajC5 c5res.1 c5res.2 (by decide)
     (by decide)⟩

end RatEval

-- ============================================================================
-- C6: distill gating
-- ============================================================================

/-- The verdict distill gates on: the trajectory's own verdict when present,
else the one judge computes first. -/
def distillGate (cfg : ReasoningBankConfig) (expFn : ℚ → ℚ) (now : ℚ)
    (traj : Trajectory) : Option TrajectoryVerdict :=
  match traj.verdict with
  | some v => some v
  | none => (judge cfg expFn now traj).toOption.map Prod.fst

theorem judge_result_shape (cfg : ReasoningBankConfig) (expFn : ℚ → ℚ)
    (now : ℚ) (traj : Trajectory) (v : TrajectoryVerdict) (traj' : Trajectory)
    (hj : judge cfg expFn now traj = .ok (v, traj')) :
    traj' = { traj with verdict := some v } := by
  cases h : traj.isComplete with
  | false => simp [judge, h] at hj
  | true =>
    simp only [judge, h, if_true, Except.ok.injEq, Prod.mk.injEq] at hj
    rw [← hj.2, ← hj.1]

theorem distill_with_verdict (cfg : ReasoningBankConfig) (expFn : ℚ → ℚ)
    (now : ℚ) (newId : String) (bank : Bank) (traj : Trajectory)
    (v : TrajectoryVerdict) (hv : traj.verdict = some v) :
    ∃ res bank' traj',
      distill cfg expFn now newId bank traj = .ok (res, bank', traj')
        ∧ (res = none ↔
            (v.success = false
              ∨ traj.qualityScore < cfg.distillationThreshold))
        ∧ (res = none → bank' = bank) := by
  cases hc : (!v.success || decide (traj.qualityScore < cfg.distillationThreshold)) with
  | true =>
    refine ⟨none, bank, traj, ?_, ?_, fun _ => rfl⟩
    · simp only [distill, hv]
      rw [hc]
      rfl
    · simp only [true_iff]
      rcases (Bool.or_eq_true _ _).mp hc with h | h
      · exact Or.inl (by simpa using h)
      · exact Or.inr (by simpa using h)
  | false =>
    rw [Bool.or_eq_false_iff] at hc
    refine ⟨(distillSuccess now newId bank traj v).1,
            (distillSuccess now newId bank traj v).2.1,
            (distillSuccess now newId bank traj v).2.2, ?_, ?_, ?_⟩
    · simp only [distill, hv]
      rw [Bool.or_eq_false_iff.mpr hc]
      rfl
    · simp only [distillSuccess, distilledOf, reduceCtorEq, false_iff, not_or]
      constructor
      · simpa using hc.1
      · simpa using hc.2
    · intro h
      exact absurd h (by simp [distillSuccess, distilledOf])

/-- C6: distill returns null — without error and without storing — exactly
when the gating verdict (the trajectory's verdict, computed by judge first
when absent) is unsuccessful or the qualityScore is below
distillationThreshold; otherwise it returns a non-null memory. -/
theorem distill_gating (cfg : ReasoningBankConfig) (expFn : ℚ → ℚ) (now : ℚ)
    (newId : String) (bank : Bank) (traj : Trajectory) (v : TrajectoryVerdict)
    (hv : distillGate cfg expFn now traj = some v) :
    ∃ res bank' traj',
      distill cfg expFn now newId bank traj = .ok (res, bank', traj')
        ∧ (res = none ↔
            (v.success = false
              ∨ traj.qualityScore < cfg.distillationThreshold))
        ∧ (res = none → bank' = bank) := by
  cases ht : traj.verdict with
  | some v0 =>
    have hv0 : v0 = v := by simpa [distillGate, ht] using hv
    exact hv0 ▸ distill_with_verdict cfg expFn now newId bank traj v0 ht
  | none =>
    simp only [distillGate, ht] at hv
    cases hj : judge cfg expFn now traj with
    | error e => rw [hj] at hv; simp [Except.toOption] at hv
    | ok pr =>
      rw [hj] at hv
      simp only [Except.toOption, Option.map_some] at hv
      obtain ⟨v1, traj1⟩ := pr
      have hv1 : v1 = v := by simpa using hv
      subst hv1
      have hshape := judge_result_shape cfg expFn now traj v1 traj1 hj
      have hver1 : traj1.verdict = some v1 := by rw [hshape]
      have hq1 : traj1.qualityScore = traj.qualityScore := by rw [hshape]
      obtain ⟨res, bank', traj', heq, hiff, hnone⟩ :=
        distill_with_verdict cfg expFn now newId bank traj1 v1 hver1
      refine ⟨res, bank', traj', ?_, by rwa [hq1] at hiff, hnone⟩
      rw [← heq]
      simp [distill, ht, hj, hver1, Except.map]

/-- A complete but low-quality trajectory: judged unsuccessful, so distill
yields null. -/
def trajC6 : Trajectory :=
  { trajectoryId := "traj_c6", domain := "general", startTime := 0
    qualityScore := 1/2, isComplete := true
    steps := [⟨"x", [1], 1⟩], verdict := none, distilledMemory := none }

/-- The gating verdict of the C6 scenario. -/
def c6v : TrajectoryVerdict :=
  (distillGate defaultConfig expOne 0 trajC6).getD default

theorem distill_gating_witness :
    distillGate defaultConfig expOne 0 trajC6 = some c6v
      ∧ (∃ res bank' traj',
          distill defaultConfig expOne 0 "mem_c6" default trajC6
              = .ok (res, bank', traj')
            ∧ (res = none ↔
                (c6v.success = false
                  ∨ trajC6.qualityScore < defaultConfig.distillationThreshold))
            ∧ (res = none → bank' = default)) :=
  ⟨rfl, distill_gating defaultConfig expOne 0 "mem_c6" default trajC6 c6v rfl⟩

-- ============================================================================
-- C4: distill has no guard against re-distillation
-- ============================================================================

/-- Number of entries of a memory store distilled from a given trajectory. -/
def countMem (l : List (String × MemoryEntry)) (tid : String) : Nat :=
  (l.filter (fun p => p.2.memory.trajectoryId == tid)).length

/-- Number of stored memories distilled from the given trajectory. -/
def countTid (bank : Bank) (tid : String) : Nat :=
  countMem bank.memories tid

theorem mapSet_of_not_mem {α : Type} (m : List (String × α)) (k : String)
    (v : α) (h : k ∉ mapKeys m) : mapSet m k v = m ++ [(k, v)] := by
  have : m.any (fun p => p.1 == k) = false := by
    rw [List.any_eq_false]
    intro p hp
    simp only [beq_iff_eq]
    intro hk
    exact h (hk ▸ List.mem_map_of_mem Prod.fst hp)
  simp [mapSet, this]

theorem countMem_append_same (l : List (String × MemoryEntry)) (tid k : String)
    (e : MemoryEntry) (he : e.memory.trajectoryId = tid) :
    countMem (l ++ [(k, e)]) tid = countMem l tid + 1 := by
  simp [countMem, List.filter_append, he]

/-- A successful run of distill: the trajectory is already judged successful
and at or above the threshold, so distill takes the storing branch. -/
theorem distill_success_run (cfg : ReasoningBankConfig) (expFn : ℚ → ℚ)
    (now : ℚ) (newId : String) (bank : Bank) (traj : Trajectory)
    (v : TrajectoryVerdict) (hv : traj.verdict = some v)
    (hs : v.success = true)
    (hq : ¬ traj.qualityScore < cfg.distillationThreshold) :
    distill cfg expFn now newId bank traj
      = .ok (distillSuccess now newId bank traj v) := by
  have hcond : (!v.success
      || decide (traj.qualityScore < cfg.distillationThreshold)) = false := by
    simp [hs, hq]
  simp only [distill, hv]
  rw [hcond]
  rfl

/-- C4, amended: distill does not guard against re-distillation.  Two distill
calls on the same already-judged successful trajectory, with fresh distinct
memory ids (as the random id generator produces), each succeed and leave two
stored memories carrying the same trajectoryId. -/
theorem distill_no_reuse_guard (cfg : ReasoningBankConfig) (expFn : ℚ → ℚ)
    (now1 now2 : ℚ) (id1 id2 : String) (bank : Bank) (traj : Trajectory)
    (v : TrajectoryVerdict) (hv : traj.verdict = some v)
    (hs : v.success = true)
    (hq : ¬ traj.qualityScore < cfg.distillationThreshold)
    (h1 : id1 ∉ mapKeys bank.memories)
    (h2 : id2 ∉ mapKeys bank.memories)
    (hne : id2 ≠ id1) :
    ∃ m1 bank1 traj1 m2 bank2 traj2,
      distill cfg expFn now1 id1 bank traj = .ok (some m1, bank1, traj1)
        ∧ distill cfg expFn now2 id2 bank1 traj1 = .ok (some m2, bank2, traj2)
        ∧ countTid bank2 traj.trajectoryId = countTid bank traj.trajectoryId + 2 := by
  have hd1 := distill_success_run cfg expFn now1 id1 bank traj v hv hs hq
  have hb1 : (distillSuccess now1 id1 bank traj v).2.1.memories
      = bank.memories
          ++ [(id1, ⟨distilledOf now1 id1 traj v,
                { traj with distilledMemory := some (distilledOf now1 id1 traj v) },
                v, false⟩)] :=
    mapSet_of_not_mem bank.memories id1 _ h1
  have hv1 : ({ traj with
      distilledMemory := some (distilledOf now1 id1 traj v) } : Trajectory).verdict
      = some v := hv
  have hq1 : ¬ ({ traj with
      distilledMemory := some (distilledOf now1 id1 traj v) } : Trajectory).qualityScore
      < cfg.distillationThreshold := hq
  have hd2 := distill_success_run cfg expFn now2 id2
    (distillSuccess now1 id1 bank traj v).2.1
    { traj with distilledMemory := some (distilledOf now1 id1 traj v) }
    v hv1 hs hq1
  have h2' : id2 ∉ mapKeys (distillSuccess now1 id1 bank traj v).2.1.memories := by
    rw [hb1]
    simp only [mapKeys, List.map_append, List.mem_append]
    rintro (h | h)
    · exact h2 h
    · simp at h
      exact hne h
  have hb2 : (distillSuccess now2 id2 (distillSuccess now1 id1 bank traj v).2.1
        { traj with distilledMemory := some (distilledOf now1 id1 traj v) } v).2.1.memories
      = (distillSuccess now1 id1 bank traj v).2.1.memories
          ++ [(id2,
               ⟨distilledOf now2 id2
                  { traj with distilledMemory := some (distilledOf now1 id1 traj v) } v,
                { traj with distilledMemory := some (distilledOf now2 id2
                    { traj with distilledMemory := some (distilledOf now1 id1 traj v) } v) },
                v, false⟩)] :=
    mapSet_of_not_mem _ id2 _ h2'
  refine ⟨distilledOf now1 id1 traj v,
      (distillSuccess now1 id1 bank traj v).2.1,
      { traj with distilledMemory := some (distilledOf now1 id1 traj v) },
      distilledOf now2 id2
        { traj with distilledMemory := some (distilledOf now1 id1 traj v) } v,
      (distillSuccess now2 id2 (distillSuccess now1 id1 bank traj v).2.1
        { traj with distilledMemory := some (distilledOf now1 id1 traj v) } v).2.1,
      { traj with distilledMemory := some (distilledOf now2 id2
          { traj with distilledMemory := some (distilledOf now1 id1 traj v) } v) },
      ?_, ?_, ?_⟩
  · rw [hd1]
    rfl
  · rw [hd2]
    rfl
  · unfold countTid
    rw [hb2, countMem_append_same _ traj.trajectoryId _ _ rfl, hb1,
        countMem_append_same _ traj.trajectoryId _ _ rfl]

/-- A judged successful trajectory for the C4 scenario. -/
def trajC4 : Trajectory :=
  { trajectoryId := "traj_c4", domain := "coding", startTime := 0
    qualityScore := 4/5, isComplete := true
    steps := [⟨"a", [1], 7/10⟩, ⟨"b", [2], 9/10⟩]
    verdict := some dummyVerdict, distilledMemory := none }

/-- Two consecutive distill calls on the same trajectory. -/
def c4run : Except String (Option DistilledMemory × Bank × Trajectory) := do
  let r1 ← distill defaultConfig expOne 0 "mem_1" default trajC4
  distill defaultConfig expOne 0 "mem_2" r1.2.1 r1.2.2

section RatEvalC4

attribute [local semireducible] Rat.add Rat.mul Rat.sub Rat.inv

/-- C4, counterexample: distilling the same successful trajectory twice
stores two memories for trajectoryId traj_c4 — the claim's "at most once"
fails on the code, which never checks trajectory.distilledMemory. -/
theorem distill_twice_stores_two :
    c4run.map (fun out => countTid out.2.1 "traj_c4") = .ok 2 := by decide

theorem distill_no_reuse_guard_witness :
    trajC4.verdict = some dummyVerdict
      ∧ dummyVerdict.success = true
      ∧ ¬ trajC4.qualityScore < defaultConfig.distillationThreshold
      ∧ "mem_1" ∉ mapKeys (default : Bank).memories
      ∧ "mem_2" ∉ mapKeys (default : Bank).memories
      ∧ ("mem_2" : String) ≠ "mem_1"
      ∧ (∃ m1 bank1 traj1 m2 bank2 traj2,
          distill defaultConfig expOne 0 "mem_1" default trajC4
              = .ok (some m1, bank1, traj1)
            ∧ distill defaultConfig expOne 0 "mem_2" bank1 traj1
                = .ok (some m2, bank2, traj2)
            ∧ countTid bank2 trajC4.trajectoryId
                = countTid default trajC4.trajectoryId + 2) :=
  ⟨rfl, rfl, by decide, by decide, by decide, by decide,
   distill_no_reuse_guard defaultConfig expOne 0 0 "mem_1" "mem_2" default
     trajC4 dummyVerdict rfl rfl (by decide) (by decide) (by decide) (by decide)⟩

end RatEvalC4

-- ============================================================================
-- C2: storeTrajectory over capacity
-- ============================================================================

theorem insertAscBy_perm {α : Type} (f : α → ℚ) (x : α) (l : List α) :
    (insertAscBy f x l).Perm (x :: l) := by
  induction l with
  | nil => exact List.Perm.refl _
  | cons y ys ih =>
    simp only [insertAscBy]
    split
    · exact List.Perm.refl _
    · exact (List.Perm.cons y ih).trans (List.Perm.swap x y ys)

theorem sortAscBy_perm {α : Type} (f : α → ℚ) (l : List α) :
    (sortAscBy f l).Perm l := by
  induction l with
  | nil => exact List.Perm.refl _
  | cons a l ih =>
    exact (insertAscBy_perm f a (sortAscBy f l)).trans (List.Perm.cons a ih)

/-- C2, amended: storeTrajectory always inserts first; when the store then
exceeds maxTrajectories, it silently prunes the lowest-qualityScore
trajectories down to floor(0.8 * maxTrajectories) entries — so inserting a
new id into a full store changes the stored set, and the new trajectory
survives unless it is itself among the removed lowest-quality entries. -/
theorem storeTrajectory_prunes_to_80pct (cfg : ReasoningBankConfig)
    (bank : Bank) (traj : Trajectory)
    (hnd : (mapKeys bank.trajectories).Nodup)
    (hnew : traj.trajectoryId ∉ mapKeys bank.trajectories)
    (hfull : bank.trajectories.length ≥ cfg.maxTrajectories) :
    (storeTrajectory cfg bank traj).trajectories.length
      = (cfg.maxTrajectories * 4) / 5 := by
  set q := (cfg.maxTrajectories * 4) / 5 with hqdef
  have hq_le : q ≤ cfg.maxTrajectories := by omega
  set m1 := bank.trajectories ++ [(traj.trajectoryId, traj)] with hm1
  have hset : mapSet bank.trajectories traj.trajectoryId traj = m1 :=
    mapSet_of_not_mem _ _ _ hnew
  have hlen1 : m1.length = bank.trajectories.length + 1 := by
    simp [hm1]
  have hgt : m1.length > cfg.maxTrajectories := by omega
  have hst : storeTrajectory cfg bank traj
      = pruneTrajectories cfg { bank with trajectories := m1 } := by
    simp only [storeTrajectory, hset]
    rw [if_pos hgt]
  rw [hst]
  unfold pruneTrajectories
  simp only
  set entries := sortAscBy (fun p => p.2.qualityScore) m1 with hentries
  have hperm : entries.Perm m1 := sortAscBy_perm _ _
  have hlen_e : entries.length = m1.length := hperm.length_eq
  set t := entries.length - q with ht
  set p : String × Trajectory → Bool :=
    fun pr => !(((entries.take t).map Prod.fst).contains pr.1) with hp
  have hkeys_nodup_m1 : (mapKeys m1).Nodup := by
    simp only [hm1, mapKeys, List.map_append, List.map_cons, List.map_nil]
    rw [List.nodup_append]
    refine ⟨hnd, List.nodup_singleton _, ?_⟩
    intro a ha hb
    simp only [List.mem_singleton] at hb
    exact hnew (hb ▸ ha)
  have hkeys_nodup : (entries.map Prod.fst).Nodup :=
    ((hperm.map Prod.fst).nodup_iff).mpr hkeys_nodup_m1
  have hfilter_perm : (m1.filter p).length = (entries.filter p).length :=
    (List.Perm.length_eq (hperm.filter p)).symm
  have hsplit : entries.take t ++ entries.drop t = entries :=
    List.take_append_drop t entries
  have htake_nil : (entries.take t).filter p = [] := by
    rw [List.filter_eq_nil_iff]
    intro a ha
    have hmem : List.elem a.1 ((entries.take t).map Prod.fst) = true :=
      List.elem_eq_true_of_mem (List.mem_map_of_mem Prod.fst ha)
    show ¬ (!(List.elem a.1 ((entries.take t).map Prod.fst))) = true
    rw [hmem]
    simp
  have hdisj : ∀ a ∈ entries.drop t, a.1 ∉ (entries.take t).map Prod.fst := by
    have hkn : ((entries.take t).map Prod.fst
        ++ (entries.drop t).map Prod.fst).Nodup := by
      rw [← List.map_append, hsplit]
      exact hkeys_nodup
    rw [List.nodup_append] at hkn
    intro a ha hmem
    exact hkn.2.2 hmem (List.mem_map_of_mem Prod.fst ha)
  have hdrop_self : (entries.drop t).filter p = entries.drop t := by
    rw [List.filter_eq_self]
    intro a ha
    show (!(List.elem a.1 ((entries.take t).map Prod.fst))) = true
    cases hel : List.elem a.1 ((entries.take t).map Prod.fst) with
    | false => rfl
    | true => exact absurd (List.mem_of_elem_eq_true hel) (hdisj a ha)
  have hfe : (entries.filter p).length = entries.length - t := by
    conv_lhs => rw [← hsplit]
    rw [List.filter_append, htake_nil, hdrop_self]
    simp [List.length_drop]
  rw [hfilter_perm, hfe]
  omega

/-- Config with capacity 2 and a full two-trajectory store for the C2 runs. -/
def cfgC2 : ReasoningBankConfig := { defaultConfig with maxTrajectories := 2 }

def bankC2 : Bank :=
  { trajectories := [("t1", trajQ "t1" (1/2)), ("t2", trajQ "t2" (3/5))]
    memories := [], patterns := [], listeners := [] }

section RatEvalC2

attribute [local semireducible] Rat.add Rat.mul Rat.sub Rat.inv

/-- C2, counterexample: with maxTrajectories = 2 and a full store of t1, t2,
storeTrajectory of a new high-quality t3 does not drop t3 — it inserts it and
prunes the two lowest-quality trajectories, leaving exactly the store t3:
the stored set changes and the new insert survives. -/
theorem storeTrajectory_not_a_silent_drop :
    (storeTrajectory cfgC2 bankC2 (trajQ "t3" (9/10))).trajectories.map Prod.fst
        = ["t3"]
      ∧ bankC2.trajectories.map Prod.fst = ["t1", "t2"] := by
  constructor
  · decide
  · decide

theorem storeTrajectory_prunes_to_80pct_witness :
    (mapKeys bankC2.trajectories).Nodup
      ∧ "t3" ∉ mapKeys bankC2.trajectories
      ∧ bankC2.trajectories.length ≥ cfgC2.maxTrajectories
      ∧ (storeTrajectory cfgC2 bankC2 (trajQ "t3" (9/10))).trajectories.length
          = (cfgC2.maxTrajectories * 4) / 5 :=
  ⟨by decide, by decide, by decide,
   storeTrajectory_prunes_to_80pct cfgC2 bankC2 (trajQ "t3" (9/10))
     (by decide) (by decide) (by decide)⟩

end RatEvalC2

-- ============================================================================
-- C3: successRate vs the mean of qualityHistory
-- ============================================================================

instance : Inhabited Pattern :=
  ⟨{ patternId := "", name := "", domain := "", embedding := [], strategy := ""
     successRate := 0, usageCount := 0, qualityHistory := []
     evolutionHistory := [], createdAt := 0, updatedAt := 0 }⟩

theorem mem_of_mapGet_some {α : Type} {m : List (String × α)} {k : String}
    {v : α} (h : mapGet m k = some v) : k ∈ mapKeys m := by
  unfold mapGet at h
  rw [Option.map_eq_some'] at h
  obtain ⟨p, hfind, _⟩ := h
  have hmem : p ∈ m := List.mem_of_find?_eq_some hfind
  have hpk := List.find?_some hfind
  simp only [beq_iff_eq] at hpk
  exact hpk ▸ List.mem_map_of_mem Prod.fst hmem

theorem mapGet_mapSet_self {α : Type} (m : List (String × α)) (k : String)
    (v : α) (hmem : k ∈ mapKeys m) : mapGet (mapSet m k v) k = some v := by
  induction m with
  | nil => simp [mapKeys] at hmem
  | cons p rest ih =>
    by_cases hk : p.1 = k
    · have hany : (p :: rest).any (fun q => q.1 == k) = true := by
        simp [List.any_cons, hk]
      have hpk : (p.1 == k) = true := by simp [hk]
      simp only [mapSet, hany, if_true, List.map_cons]
      unfold mapGet
      rw [List.find?_cons_of_pos _ (by simp [hpk])]
      simp [hpk]
    · have hmem' : k ∈ mapKeys rest := by
        simp only [mapKeys, List.map_cons, List.mem_cons] at hmem
        rcases hmem with h | h
        · exact absurd h.symm hk
        · exact h
      have hany' : rest.any (fun q => q.1 == k) = true := by
        rw [List.any_eq_true]
        obtain ⟨q, hq, hqk⟩ := List.mem_map.mp hmem'
        exact ⟨q, hq, by simp [hqk]⟩
      have hany : (p :: rest).any (fun q => q.1 == k) = true := by
        simp [List.any_cons, hany']
      have hpk : (p.1 == k) = false := by simp [hk]
      have hrest : rest.map
          (fun q => if q.1 == k then (k, v) else q) = mapSet rest k v := by
        simp [mapSet, hany']
      simp only [mapSet, hany, if_true, List.map_cons, hpk]
      unfold mapGet
      rw [List.find?_cons_of_neg _ (by simp [hpk])]
      rw [hrest]
      exact ih hmem'

/-- C3 (amended): after evolvePattern on an existing pattern, the pattern's
successRate equals the arithmetic mean of its current (capped) qualityHistory.
The pattern-merge step of consolidate does NOT preserve this: it concatenates
the loser's qualityHistory into the survivor without recomputing successRate
(see the counterexample). -/
theorem evolvePattern_successRate_mean (now : ℚ) (bank : Bank)
    (patternId : String) (traj : Trajectory) (bank' : Bank) (p' : Pattern)
    (he : evolvePattern now bank patternId traj = .ok bank')
    (hg : mapGet bank'.patterns patternId = some p') :
    p'.successRate = p'.qualityHistory.sum / (p'.qualityHistory.length : ℚ) := by
  unfold evolvePattern at he
  cases hm : mapGet bank.patterns patternId with
  | none =>
    rw [hm] at he
    simp only [Except.ok.injEq] at he
    rw [← he] at hg
    rw [hm] at hg
    exact absurd hg (by simp)
  | some pattern =>
    rw [hm] at he
    simp only [emitEvent_ok, Except.ok.injEq] at he
    rw [← he] at hg
    have hkey : patternId ∈ mapKeys bank.patterns := mem_of_mapGet_some hm
    rw [mapGet_mapSet_self _ _ _ hkey] at hg
    simp only [Option.some.injEq] at hg
    rw [← hg]

/-- Two same-domain patterns with identical embeddings and opposite success
rates: the merge step folds pat_b into pat_a. -/
def patC3 (id : String) (sr : ℚ) (qh : List ℚ) : Pattern :=
  { patternId := id, name := id, domain := "general", embedding := [1]
    strategy := "s", successRate := sr, usageCount := 1, qualityHistory := qh
    evolutionHistory := [], createdAt := 0, updatedAt := 0 }

def bankC3 : Bank :=
  { trajectories := [], memories := [], listeners := []
    patterns := [("pat_a", patC3 "pat_a" 1 [1]), ("pat_b", patC3 "pat_b" 0 [0])] }

/-- A single-pattern bank for the evolvePattern witness run. -/
def bankC3e : Bank :=
  { trajectories := [], memories := [], listeners := []
    patterns := [("pat_e", patC3 "pat_e" (1/2) [1/2])] }

def c3bank2 : Bank :=
  (evolvePattern 0 bankC3e "pat_e" (trajQ "tx" (9/10))).toOption.getD default

def c3p2 : Pattern := (mapGet c3bank2.patterns "pat_e").getD default

section RatEvalC3

attribute [local semireducible] Rat.add Rat.mul Rat.sub Rat.inv

/-- C3, counterexample: consolidate's merge step on bankC3 leaves the
surviving pat_a with qualityHistory [1, 0] but successRate still 1, so
successRate differs from the history mean 1/2 after the merge. -/
theorem merge_breaks_successRate_mean :
    (consolidate defaultConfig simEq 0 bankC3).map (fun out =>
        (out.1.mergedPatterns,
         (mapGet out.2.patterns "pat_a").map (fun p =>
           (p.qualityHistory,
            decide (p.successRate
              = p.qualityHistory.sum / (p.qualityHistory.length : ℚ))))))
      = .ok (1, some ([1, 0], false)) := by decide

theorem evolvePattern_successRate_mean_witness :
    evolvePattern 0 bankC3e "pat_e" (trajQ "tx" (9/10)) = .ok c3bank2
      ∧ mapGet c3bank2.patterns "pat_e" = some c3p2
      ∧ c3p2.successRate
          = c3p2.qualityHistory.sum / (c3p2.qualityHistory.length : ℚ) :=
  ⟨rfl, rfl,
   evolvePattern_successRate_mean 0 bankC3e "pat_e" (trajQ "tx" (9/10))
     c3bank2 c3p2 rfl rfl⟩

end RatEvalC3

-- ============================================================================
-- C1: contradiction marking vs retrieval
-- ============================================================================

/-- A kernel agreeing with cosine similarity on the vectors of the C1 run:
cos(x, x) = 1 and cos([7,24], [3,4]) = 117/(25*5) = 117/125 = 0.936 exactly
(both vector norms, 25 and 5, are integers). -/
def simC1 : Emb → Emb → ℚ := fun a b => if a = b then 1 else 117/125

/-- Two memories with cosine similarity 0.936 — above the contradiction
threshold 0.8, below the dedup threshold 0.95 — and quality gap 0.6 > 0.4. -/
def bankC1 : Bank :=
  { trajectories := [], patterns := [], listeners := []
    memories := [("mem_A", mkEntry "mem_A" "tA" [7, 24] (9/10)),
                 ("mem_B", mkEntry "mem_B" "tB" [3, 4] (3/10))] }

section RatEvalC1

attribute [local semireducible] Rat.add Rat.mul Rat.sub Rat.inv

/-- C1: on bankC1, consolidate detects the contradiction and marks the
lower-quality mem_B consolidated = true while keeping it in the store —
but a subsequent retrieve still returns mem_B: the source's retrieve loop
(part_004:672) iterates this.memories.values() without filtering on the
consolidated flag, contradicting the marking comment "(to exclude from
retrieval)" and the spec's "excluded from future retrieval". -/
theorem consolidated_memory_still_retrieved :
    (consolidate defaultConfig simC1 0 bankC1).map (fun out =>
        (out.1.contradictionsDetected,
         (mapGet out.2.memories "mem_B").map (fun e => e.consolidated),
         mapKeys out.2.memories,
         (retrieve defaultConfig simC1 out.2 [7, 24] none).map
           (fun r => r.memory.memoryId)))
      = .ok (1, some true, ["mem_A", "mem_B"], ["mem_A", "mem_B"]) := by
  decide

end RatEvalC1

-- ============================================================================
-- C8: MMR with lambda = 1 is plain relevance ordering
-- ============================================================================

theorem mem_insertDescBy {α : Type} (f : α → ℚ) (x : α) (l : List α) (a : α) :
    a ∈ insertDescBy f x l ↔ a = x ∨ a ∈ l := by
  induction l with
  | nil => simp [insertDescBy]
  | cons y ys ih =>
    simp only [insertDescBy]
    split
    · simp [List.mem_cons]
    · simp only [List.mem_cons, ih]
      tauto

theorem pairwise_insertDescBy {α : Type} (f : α → ℚ) (x : α) (l : List α)
    (h : l.Pairwise (fun a b => f a ≥ f b)) :
    (insertDescBy f x l).Pairwise (fun a b => f a ≥ f b) := by
  induction l with
  | nil => simp [insertDescBy]
  | cons y ys ih =>
    rw [List.pairwise_cons] at h
    simp only [insertDescBy]
    split
    · rename_i hxy
      rw [List.pairwise_cons]
      refine ⟨?_, List.pairwise_cons.mpr h⟩
      intro b hb
      rcases List.mem_cons.mp hb with rfl | hb
      · exact hxy
      · exact le_trans (h.1 b hb) hxy
    · rename_i hxy
      rw [List.pairwise_cons]
      refine ⟨?_, ih h.2⟩
      intro b hb
      rcases (mem_insertDescBy f x ys b).mp hb with rfl | hb
      · exact le_of_not_le hxy
      · exact h.1 b hb

theorem sortDescBy_pairwise {α : Type} (f : α → ℚ) (l : List α) :
    (sortDescBy f l).Pairwise (fun a b => f a ≥ f b) := by
  induction l with
  | nil => exact List.Pairwise.nil
  | cons a l ih => exact pairwise_insertDescBy f a (sortDescBy f l) ih

theorem bestIndexAux_const (l : List ℚ) (bs : ℚ) (bi : Nat)
    (h : ∀ s ∈ l, s ≤ bs) : ∀ i, bestIndexAux bi bs i l = bi := by
  induction l with
  | nil => intro i; rfl
  | cons s rest ih =>
    intro i
    have hns : ¬ s > bs := not_lt.mpr (h s (List.mem_cons_self s rest))
    simp only [bestIndexAux, if_neg hns]
    exact ih (fun r hr => h r (List.mem_cons_of_mem s hr)) (i + 1)

theorem bestIndex_sorted_zero (s0 : ℚ) (rest : List ℚ)
    (h : ∀ s ∈ rest, s ≤ s0) : bestIndex (s0 :: rest) = 0 :=
  bestIndexAux_const rest s0 0 h 1

theorem mmrScore_lambda_one (cfg : ReasoningBankConfig) (sim : Emb → Emb → ℚ)
    (selected : List MemoryEntry) (c : MemoryEntry × ℚ)
    (h : cfg.mmrLambda = 1) : mmrScore cfg sim selected c = c.2 := by
  simp [mmrScore, h]

theorem mmrLoop_relevance_order (cfg : ReasoningBankConfig)
    (sim : Emb → Emb → ℚ) (hl : cfg.mmrLambda = 1) :
    ∀ (fuel : Nat) (candidates : List (MemoryEntry × ℚ))
      (selected : List MemoryEntry),
      candidates.Pairwise (fun a b => a.2 ≥ b.2) →
      (mmrLoop cfg sim fuel candidates selected).map (fun r => r.memory)
        = (candidates.take fuel).map (fun c => c.1.memory) := by
  intro fuel
  induction fuel with
  | zero => intro candidates selected _; rfl
  | succ fuel ih =>
    intro candidates selected hpw
    cases candidates with
    | nil => rfl
    | cons c cs =>
      have hscores : (c :: cs).map (mmrScore cfg sim selected)
          = (c :: cs).map (fun x => x.2) :=
        List.map_congr_left (fun a _ => mmrScore_lambda_one cfg sim selected a hl)
      have hhead : ∀ s ∈ cs.map (fun x : MemoryEntry × ℚ => x.2), s ≤ c.2 := by
        intro s hs
        obtain ⟨x, hx, rfl⟩ := List.mem_map.mp hs
        exact (List.pairwise_cons.mp hpw).1 x hx
      have hb : bestIndex (mmrScore cfg sim selected c
          :: cs.map (mmrScore cfg sim selected)) = 0 := by
        rw [← List.map_cons, hscores, List.map_cons]
        exact bestIndex_sorted_zero c.2 _ hhead
      simp only [mmrLoop, hb, List.getD_cons_zero, List.eraseIdx_cons_zero,
        List.map_cons, List.take_succ_cons]
      rw [ih cs (selected ++ [c.1]) (List.pairwise_cons.mp hpw).2]

/-- C8: with mmrLambda = 1, the ordering of memories produced by retrieve is
the plain relevance ordering — the stable descending sort by cosine
similarity to the query, ties resolved to the first candidate of the
relevance-sorted scan order (insertion order among ties) — truncated to k. -/
theorem retrieve_lambda_one_is_relevance_order (cfg : ReasoningBankConfig)
    (sim : Emb → Emb → ℚ) (bank : Bank) (query : Emb) (k : Option Nat) :
    (retrieve { cfg with mmrLambda := 1 } sim bank query k).map
        (fun r => r.memory)
      = ((relevanceRanking sim bank query).take (k.getD cfg.retrievalK)).map
          (fun c => c.1.memory) := by
  unfold retrieve
  cases hmem : bank.memories with
  | nil => simp [hmem, relevanceRanking, sortDescBy]
  | cons m ms =>
    simp only [List.isEmpty_cons, Bool.false_eq_true, if_false]
    exact mmrLoop_relevance_order { cfg with mmrLambda := 1 } sim rfl
      (k.getD cfg.retrievalK) (relevanceRanking sim bank query) []
      (sortDescBy_pairwise _ _)

-- ============================================================================
-- C7: dedup idempotence
-- ============================================================================

theorem not_mem_keys_of_sublist {s t : List (String × MemoryEntry)}
    {k : String} (hsub : s.Sublist t) (h : k ∉ mapKeys t) : k ∉ mapKeys s := by
  intro hk
  exact h (List.Sublist.subset (List.Sublist.map Prod.fst hsub) hk)

theorem mapDelete_not_mem {α : Type} (m : List (String × α)) (k : String) :
    k ∉ mapKeys (mapDelete m k) := by
  intro hk
  unfold mapKeys mapDelete at hk
  obtain ⟨p, hp, hpk⟩ := List.mem_map.mp hk
  have hfil := (List.mem_filter.mp hp).2
  simp [hpk] at hfil

theorem mapDelete_sublist {α : Type} (m : List (String × α)) (k : String) :
    (mapDelete m k).Sublist m :=
  List.filter_sublist m

theorem dedupInner_sublist (sim : Emb → Emb → ℚ) (thr : ℚ)
    (a : String × MemoryEntry) :
    ∀ (l store : List (String × MemoryEntry)) (r : Nat),
      ((dedupInner sim thr a l store r).1).Sublist store := by
  intro l
  induction l with
  | nil => intro store r; exact List.Sublist.refl _
  | cons b bs ih =>
    intro store r
    simp only [dedupInner]
    split
    · refine (ih _ _).trans ?_
      split
      · exact mapDelete_sublist _ _
      · exact mapDelete_sublist _ _
    · exact ih _ _

theorem dedupOuter_sublist (sim : Emb → Emb → ℚ) (thr : ℚ) :
    ∀ (l store : List (String × MemoryEntry)) (r : Nat),
      ((dedupOuter sim thr l store r).1).Sublist store := by
  intro l
  induction l with
  | nil => intro store r; exact List.Sublist.refl _
  | cons a rest ih =>
    intro store r
    simp only [dedupOuter]
    exact (ih _ _).trans (dedupInner_sublist sim thr a rest store r)

theorem dedupInner_kills (sim : Emb → Emb → ℚ) (thr : ℚ)
    (a b : String × MemoryEntry)
    (hsim : sim a.2.memory.embedding b.2.memory.embedding > thr) :
    ∀ (l store : List (String × MemoryEntry)) (r : Nat), b ∈ l →
      a.1 ∉ mapKeys (dedupInner sim thr a l store r).1
        ∨ b.1 ∉ mapKeys (dedupInner sim thr a l store r).1 := by
  intro l
  induction l with
  | nil => intro store r h; exact absurd h (List.not_mem_nil b)
  | cons c cs ih =>
    intro store r hmem
    rcases List.mem_cons.mp hmem with rfl | hb
    · simp only [dedupInner, if_pos hsim]
      split
      · exact Or.inr (not_mem_keys_of_sublist
          (dedupInner_sublist sim thr a cs _ _) (mapDelete_not_mem store b.1))
      · exact Or.inl (not_mem_keys_of_sublist
          (dedupInner_sublist sim thr a cs _ _) (mapDelete_not_mem store a.1))
    · simp only [dedupInner]
      split
      · split
        · exact ih _ _ hb
        · exact ih _ _ hb
      · exact ih _ _ hb

theorem dedupOuter_kills (sim : Emb → Emb → ℚ) (thr : ℚ)
    (x y : String × MemoryEntry)
    (hsim : sim x.2.memory.embedding y.2.memory.embedding > thr) :
    ∀ (l store : List (String × MemoryEntry)) (r : Nat),
      [x, y].Sublist l →
      x.1 ∉ mapKeys (dedupOuter sim thr l store r).1
        ∨ y.1 ∉ mapKeys (dedupOuter sim thr l store r).1 := by
  intro l
  induction l with
  | nil =>
    intro store r h
    rw [List.sublist_nil] at h
    exact absurd h (by simp)
  | cons c cs ih =>
    intro store r hsub
    cases hsub with
    | cons _ h =>
      simp only [dedupOuter]
      exact ih _ _ h
    | cons₂ _ h =>
      have hy : y ∈ cs := List.singleton_sublist.mp h
      simp only [dedupOuter]
      rcases dedupInner_kills sim thr x y hsim cs store r hy with hx | hy'
      · exact Or.inl (not_mem_keys_of_sublist
          (dedupOuter_sublist sim thr cs _ _) hx)
      · exact Or.inr (not_mem_keys_of_sublist
          (dedupOuter_sublist sim thr cs _ _) hy')

theorem dedupInner_no_sim (sim : Emb → Emb → ℚ) (thr : ℚ)
    (a : String × MemoryEntry) :
    ∀ (l store : List (String × MemoryEntry)) (r : Nat),
      (∀ b ∈ l, ¬ sim a.2.memory.embedding b.2.memory.embedding > thr) →
      dedupInner sim thr a l store r = (store, r) := by
  intro l
  induction l with
  | nil => intro store r _; rfl
  | cons b bs ih =>
    intro store r h
    simp only [dedupInner, if_neg (h b (List.mem_cons_self b bs))]
    exact ih _ _ (fun q hq => h q (List.mem_cons_of_mem b hq))

theorem dedupOuter_no_sim (sim : Emb → Emb → ℚ) (thr : ℚ) :
    ∀ (l store : List (String × MemoryEntry)) (r : Nat),
      (∀ x y, [x, y].Sublist l →
        ¬ sim x.2.memory.embedding y.2.memory.embedding > thr) →
      dedupOuter sim thr l store r = (store, r) := by
  intro l
  induction l with
  | nil => intro store r _; rfl
  | cons a cs ih =>
    intro store r h
    have hinner : dedupInner sim thr a cs store r = (store, r) :=
      dedupInner_no_sim sim thr a cs store r
        (fun b hb => h a b (List.Sublist.cons₂ a (List.singleton_sublist.mpr hb)))
    simp only [dedupOuter, hinner]
    exact ih _ _ (fun x y hxy => h x y (List.Sublist.cons a hxy))

/-- Every ordered pair surviving a dedup pass has similarity at most the
threshold: the pass deletes one element of every similar snapshot pair, and
keys are never re-inserted. -/
theorem dedup_result_no_sim (sim : Emb → Emb → ℚ) (thr : ℚ)
    (s0 : List (String × MemoryEntry)) :
    ∀ x y, [x, y].Sublist (dedupOuter sim thr s0 s0 0).1 →
      ¬ sim x.2.memory.embedding y.2.memory.embedding > thr := by
  intro x y hsub hsim
  have hx : x ∈ (dedupOuter sim thr s0 s0 0).1 :=
    hsub.subset (by simp)
  have hy : y ∈ (dedupOuter sim thr s0 s0 0).1 :=
    hsub.subset (by simp)
  have hsub0 : [x, y].Sublist s0 :=
    hsub.trans (dedupOuter_sublist sim thr s0 s0 0)
  rcases dedupOuter_kills sim thr x y hsim s0 s0 0 hsub0 with h | h
  · exact h (List.mem_map_of_mem Prod.fst hx)
  · exact h (List.mem_map_of_mem Prod.fst hy)

/-- The id and memory of an entry, forgetting the mutable consolidated flag
and the trajectory/verdict references. -/
def stripEntry (p : String × MemoryEntry) : String × DistilledMemory :=
  (p.1, p.2.memory)

theorem markConsolidated_strip (s : List (String × MemoryEntry)) (k : String) :
    (markConsolidated s k).map stripEntry = s.map stripEntry := by
  unfold markConsolidated
  rw [List.map_map]
  apply List.map_congr_left
  intro p _
  simp only [Function.comp_apply]
  split
  · rfl
  · rfl

theorem contraInner_strip (sim : Emb → Emb → ℚ) (a : String × MemoryEntry) :
    ∀ (l store : List (String × MemoryEntry)) (c : Nat),
      (contraInner sim a l store c).1.map stripEntry = store.map stripEntry := by
  intro l
  induction l with
  | nil => intro store c; rfl
  | cons b bs ih =>
    intro store c
    simp only [contraInner]
    split
    · split
      · rw [ih]
        split
        · exact markConsolidated_strip store a.1
        · exact markConsolidated_strip store b.1
      · exact ih _ _
    · exact ih _ _

theorem contraOuter_strip (sim : Emb → Emb → ℚ) :
    ∀ (l store : List (String × MemoryEntry)) (c : Nat),
      (contraOuter sim l store c).1.map stripEntry = store.map stripEntry := by
  intro l
  induction l with
  | nil => intro store c; rfl
  | cons a rest ih =>
    intro store c
    simp only [contraOuter]
    rw [ih, contraInner_strip]

/-- Contradiction marking only flips consolidated flags, so it preserves the
"no similar ordered pair" property of the store. -/
theorem contra_no_sim_transfer (sim : Emb → Emb → ℚ) (thr : ℚ)
    (s1 : List (String × MemoryEntry))
    (h : ∀ x y, [x, y].Sublist s1 →
      ¬ sim x.2.memory.embedding y.2.memory.embedding > thr) :
    ∀ x y, [x, y].Sublist (contraOuter sim s1 s1 0).1 →
      ¬ sim x.2.memory.embedding y.2.memory.embedding > thr := by
  intro x y hsub hsim
  have hmap : [stripEntry x, stripEntry y].Sublist (s1.map stripEntry) := by
    rw [← contraOuter_strip sim s1 s1 0]
    exact List.Sublist.map stripEntry hsub
  obtain ⟨l', hl', heq⟩ := List.sublist_map_iff.mp hmap
  cases l' with
  | nil => simp at heq
  | cons x' l2 =>
    cases l2 with
    | nil => simp at heq
    | cons y' l3 =>
      cases l3 with
      | cons z l4 => simp at heq
      | nil =>
        simp only [List.map_cons, List.map_nil, List.cons.injEq, and_true]
          at heq
        obtain ⟨hx, hy⟩ := heq
        have hex : x.2.memory.embedding = x'.2.memory.embedding := by
          have h2 : (stripEntry x).2 = (stripEntry x').2 := by rw [hx]
          simpa [stripEntry] using congrArg DistilledMemory.embedding h2
        have hey : y.2.memory.embedding = y'.2.memory.embedding := by
          have h2 : (stripEntry y).2 = (stripEntry y').2 := by rw [hy]
          simpa [stripEntry] using congrArg DistilledMemory.embedding h2
        rw [hex, hey] at hsim
        exact h x' y' hl' hsim

theorem consolidate_eq_ok (cfg : ReasoningBankConfig) (sim : Emb → Emb → ℚ)
    (now : ℚ) (bank : Bank) :
    consolidate cfg sim now bank = .ok (consolidateRun cfg sim now bank) := by
  unfold consolidate
  simp only [emitEvent_ok]

theorem consolidateRun_removed (cfg : ReasoningBankConfig)
    (sim : Emb → Emb → ℚ) (now : ℚ) (bank : Bank) :
    (consolidateRun cfg sim now bank).1.removedDuplicates
      = (dedupOuter sim cfg.dedupThreshold bank.memories bank.memories 0).2 :=
  rfl

theorem consolidateRun_memories (cfg : ReasoningBankConfig)
    (sim : Emb → Emb → ℚ) (now : ℚ) (bank : Bank) :
    (consolidateRun cfg sim now bank).2.memories
      = (if cfg.enableContradictionDetection then
          (contraOuter sim
            (dedupOuter sim cfg.dedupThreshold bank.memories bank.memories 0).1
            (dedupOuter sim cfg.dedupThreshold bank.memories bank.memories 0).1
            0).1
         else
          (dedupOuter sim cfg.dedupThreshold bank.memories bank.memories 0).1) := by
  by_cases h : cfg.enableContradictionDetection
  · simp [consolidateRun, deduplicateMemories, detectContradictions,
      pruneOldPatterns, mergePatterns, h]
  · simp [consolidateRun, deduplicateMemories, detectContradictions,
      pruneOldPatterns, mergePatterns, h]

/-- C7: deduplication is idempotent — running consolidate twice in a row with
no mutation in between yields removedDuplicates = 0 on the second run, for
every memory store and similarity kernel. -/
theorem consolidate_dedup_idempotent (cfg : ReasoningBankConfig)
    (sim : Emb → Emb → ℚ) (now1 now2 : ℚ) (bank : Bank)
    (out1 out2 : ConsolidationResult × Bank)
    (h1 : consolidate cfg sim now1 bank = .ok out1)
    (h2 : consolidate cfg sim now2 out1.2 = .ok out2) :
    out2.1.removedDuplicates = 0 := by
  rw [consolidate_eq_ok] at h1 h2
  have e1 : consolidateRun cfg sim now1 bank = out1 := Except.ok.inj h1
  have e2 : consolidateRun cfg sim now2 out1.2 = out2 := Except.ok.inj h2
  rw [← e2, consolidateRun_removed]
  have hnosim : ∀ x y, [x, y].Sublist out1.2.memories →
      ¬ sim x.2.memory.embedding y.2.memory.embedding > cfg.dedupThreshold := by
    rw [← e1, consolidateRun_memories]
    by_cases h : cfg.enableContradictionDetection
    · rw [if_pos h]
      exact contra_no_sim_transfer sim cfg.dedupThreshold _
        (dedup_result_no_sim sim cfg.dedupThreshold bank.memories)
    · rw [if_neg h]
      exact dedup_result_no_sim sim cfg.dedupThreshold bank.memories
  rw [dedupOuter_no_sim sim cfg.dedupThreshold out1.2.memories
    out1.2.memories 0 hnosim]

/-- Two near-duplicate memories (identical embeddings, qualities 0.9 and
0.8): the first consolidate removes one, the second removes nothing. -/
def bankC7 : Bank :=
  { trajectories := [], patterns := [], listeners := []
    memories := [("m1", mkEntry "m1" "t1" [1, 0] (9/10)),
                 ("m2", mkEntry "m2" "t2" [1, 0] (4/5))] }

def c7out1 : ConsolidationResult × Bank :=
  (consolidate defaultConfig simEq 0 bankC7).toOption.getD default

def c7out2 : ConsolidationResult × Bank :=
  (consolidate defaultConfig simEq 0 c7out1.2).toOption.getD default

section RatEvalC7

attribute [local semireducible] Rat.add Rat.mul Rat.sub Rat.inv

theorem consolidate_dedup_idempotent_witness :
    consolidate defaultConfig simEq 0 bankC7 = .ok c7out1
      ∧ consolidate defaultConfig simEq 0 c7out1.2 = .ok c7out2
      ∧ c7out1.1.removedDuplicates = 1
      ∧ c7out2.1.removedDuplicates = 0 :=
  ⟨rfl, rfl, by decide,
   consolidate_dedup_idempotent defaultConfig simEq 0 0 bankC7 c7out1 c7out2
     rfl rfl⟩

end RatEvalC7

-- ============================================================================
-- C9: PageRank mass conservation
-- ============================================================================

theorem card_targets (g : MemoryGraph) (u : ℕ) :
    (g.nodes.filter (fun v => (u, v) ∈ g.edges)).card = outDeg g u := by
  unfold outDeg
  apply Finset.card_bij (fun v _ => (u, v))
  · intro a ha
    rw [Finset.mem_filter] at ha ⊢
    exact ⟨ha.2, rfl⟩
  · intro a₁ ha₁ a₂ ha₂ h
    simpa using h
  · intro e he
    rw [Finset.mem_filter] at he
    obtain ⟨hee, heu⟩ := he
    refine ⟨e.2, ?_, ?_⟩
    · rw [Finset.mem_filter]
      refine ⟨(g.edges_valid e hee).2, ?_⟩
      have : (u, e.2) = e := Prod.ext heu.symm rfl
      rw [this]
      exact hee
    · exact Prod.ext heu.symm rfl

theorem sum_pageRankStep (g : MemoryGraph) (r : ℕ → ℚ) (hN : g.nodes.Nonempty)
    (hsum : ∑ v in g.nodes, r v = 1) :
    ∑ v in g.nodes, pageRankStep g r v = 1 := by
  have hcard : ((g.nodes.card : ℚ)) ≠ 0 :=
    Nat.cast_ne_zero.mpr (Finset.card_pos.mpr hN).ne'
  have hA : (∑ v in g.nodes,
        ∑ u in g.nodes.filter (fun u => (u, v) ∈ g.edges),
          r u / (outDeg g u : ℚ))
      = 1 - danglingMass g r := by
    have h1 : ∀ v ∈ g.nodes,
        (∑ u in g.nodes.filter (fun u => (u, v) ∈ g.edges),
          r u / (outDeg g u : ℚ))
          = ∑ u in g.nodes,
              if (u, v) ∈ g.edges then r u / (outDeg g u : ℚ) else 0 :=
      fun v _ => Finset.sum_filter _ _
    rw [Finset.sum_congr rfl h1, Finset.sum_comm]
    have h2 : ∀ u ∈ g.nodes,
        (∑ v in g.nodes,
          if (u, v) ∈ g.edges then r u / (outDeg g u : ℚ) else 0)
          = if outDeg g u = 0 then 0 else r u := by
      intro u _
      rw [← Finset.sum_filter, Finset.sum_const, card_targets, nsmul_eq_mul]
      by_cases hz : outDeg g u = 0
      · simp [hz]
      · have hnz : ((outDeg g u : ℚ)) ≠ 0 := Nat.cast_ne_zero.mpr hz
        rw [if_neg hz, mul_comm, div_mul_cancel₀ _ hnz]
    rw [Finset.sum_congr rfl h2, Finset.sum_ite, Finset.sum_const_zero,
      zero_add]
    have h3 : ∑ u in g.nodes.filter (fun u => outDeg g u = 0), r u
        + ∑ u in g.nodes.filter (fun u => ¬ outDeg g u = 0), r u = 1 := by
      rw [Finset.sum_filter_add_sum_filter_not]
      exact hsum
    unfold danglingMass
    linarith [h3]
  unfold pageRankStep
  rw [Finset.sum_add_distrib, Finset.sum_const, nsmul_eq_mul]
  rw [← Finset.mul_sum, Finset.sum_add_distrib, hA, Finset.sum_const,
    nsmul_eq_mul]
  rw [mul_comm ((g.nodes.card : ℚ)) ((1 - pageRankDamping) / (g.nodes.card : ℚ)),
    div_mul_cancel₀ _ hcard]
  rw [mul_comm ((g.nodes.card : ℚ)) (danglingMass g r / (g.nodes.card : ℚ)),
    div_mul_cancel₀ _ hcard]
  ring

theorem pageRankIter_sum (g : MemoryGraph) (hN : g.nodes.Nonempty) :
    ∀ (fuel : Nat) (r : ℕ → ℚ), (∑ v in g.nodes, r v = 1) →
      ∑ v in g.nodes, pageRankIter g fuel r v = 1 := by
  intro fuel
  induction fuel with
  | zero => intro r h; exact h
  | succ fuel ih =>
    intro r h
    simp only [pageRankIter]
    split
    · exact sum_pageRankStep g r hN h
    · exact ih _ (sum_pageRankStep g r hN h)

/-- C9: for every non-empty graph the PageRank values over all nodes sum to
1 within 0.01 (in this exact-arithmetic model the sum is conserved exactly by
the dangling-mass redistribution); for a single-node graph with no edges the
sole node's rank is 1 within 0.00001. -/
theorem computePageRank_conservation (g : MemoryGraph) :
    (g.nodes.Nonempty →
      |(∑ v in g.nodes, computePageRank g v) - 1| ≤ 1/100)
      ∧ (∀ a, g.nodes = {a} → g.edges = ∅ →
          |computePageRank g a - 1| ≤ 1/100000) := by
  have main : g.nodes.Nonempty → ∑ v in g.nodes, computePageRank g v = 1 := by
    intro hN
    have hcard0 : ¬ g.nodes.card = 0 := (Finset.card_pos.mpr hN).ne'
    have hcard : ((g.nodes.card : ℚ)) ≠ 0 := Nat.cast_ne_zero.mpr hcard0
    unfold computePageRank
    rw [if_neg hcard0]
    apply pageRankIter_sum g hN
    rw [Finset.sum_const, nsmul_eq_mul, mul_one_div,
      div_self hcard]
  constructor
  · intro hN
    rw [main hN]
    norm_num
  · intro a ha _
    have hN : g.nodes.Nonempty := by rw [ha]; exact ⟨a, Finset.mem_singleton_self a⟩
    have h1 : ∑ v in g.nodes, computePageRank g v = computePageRank g a := by
      rw [ha, Finset.sum_singleton]
    have := main hN
    rw [h1] at this
    rw [this]
    norm_num

/-- The single-node, no-edge graph. -/
def singletonGraph : MemoryGraph :=
  { nodes := {0}, edges := ∅, edges_valid := by simp }

theorem computePageRank_conservation_witness :
    (singletonGraph.nodes.Nonempty
        ∧ |(∑ v in singletonGraph.nodes, computePageRank singletonGraph v) - 1|
            ≤ 1/100)
      ∧ (singletonGraph.nodes = {0} ∧ singletonGraph.edges = ∅
          ∧ |computePageRank singletonGraph 0 - 1| ≤ 1/100000) :=
  ⟨⟨⟨0, Finset.mem_singleton_self 0⟩,
    (computePageRank_conservation singletonGraph).1 ⟨0, Finset.mem_singleton_self 0⟩⟩,
   ⟨rfl, rfl,
    (computePageRank_conservation singletonGraph).2 0 rfl rfl⟩⟩

end ClaudeFlow
